import Mathlib

/-!
Shallow embedding of `shopping_cart_settings.py` (Shopping Cart Settings), the
territory-scoped rule-resolution engine and its save-time validators.

Modelling conventions:
* A rule table (`price_lists`, `sales_taxes_and_charges_masters`,
  `shipping_rules`) is embedded as the list of its rows' rule-ref strings in
  row order (the Python code reads `[doc.get(fieldname) for doc in
  self.get(parentfield)]`).
* The external `tabApplicable Territory` store (queried by
  `get_territory_name_map` via SQL) is embedded, per parenttype, as a list of
  `(territory, parent-rule-ref)` pairs in the store's iteration order; the SQL
  `parent in (names)` filter is applied explicitly.
* `frappe.utils.nestedset.get_ancestors_of` (the TerritoryTree) is an external
  collaborator, embedded as a function `String → List String` returning the
  nearest-first ancestor chain.
* `msgprint(..., raise_exception=...)` and `frappe.throw` raise; they are
  embedded as `Except.error` with an explicit error value.  Python operations
  that can raise (`list.index` inside the sort key) are likewise given an
  explicit error outcome, so "never raises" claims are meaningful.
* Python dicts preserve nothing we rely on except key/value association and a
  deterministic iteration order; they are embedded as insertion-ordered
  association lists (`setdefault` appends a fresh key at the end, assignment
  keeps the key's position).  CPython set iteration order is a deterministic
  function of the inserted elements; `list(set(xs).difference(ys))` is
  embedded with first-insertion order as the deterministic representative.
* Python truthiness on the values that occur here: `None`, `""` and `[]` are
  falsy; everything else is truthy.
-/

namespace Cart

/-- Errors surfaced by the validators (all raised through
`msgprint(..., raise_exception=ShoppingCartSetupError)` or `frappe.throw`),
plus `valueError` for the Python `ValueError` that `names.index(val)` would
raise on a value absent from `names`. -/
inductive Err where
  | valueError : Err
  | emptyTable (parentfield : String) : Err
  | overlap (doctype : String) (refs : List String) (territory : String) : Err
  | coverage (territory : String) : Err
  | missingCompanyCurrency (company : String) : Err
  | missingPriceListCurrency (priceList : String) : Err
  | missingExchangeRates (pairs : List String) : Err
deriving DecidableEq, Repr

/-- The `territory_name_map` dict: insertion-ordered association list from
territory to the list of rule-ref names directly assigned to it. -/
abbrev TMap := List (String × List String)

/-- Python `dict.get`: the value at key `t`, or `none`. -/
def mapGet : TMap → String → Option (List String)
  | [], _ => none
  | (k, v) :: rest, t => if k = t then some v else mapGet rest t

/-- Python dict assignment: replace the value at an existing key in place
(key order unchanged), or append a new key at the end (as `setdefault` does). -/
def mapSet : TMap → String → List String → TMap
  | [], t, l => [(t, l)]
  | (k, v) :: rest, t, l =>
    if k = t then (k, l) :: rest else (k, v) :: mapSet rest t l

/-- The list stored at key `t`, taking the empty list when the key is absent
(the `setdefault(territory, [])` default). -/
def listAt (m : TMap) (t : String) : List String :=
  (mapGet m t).getD []

/-- Python `names.index(val)`: index of the first occurrence of `v` in
`names`. -/
def keyIdx (names : List String) (v : String) : Nat :=
  names.findIdx (fun x => x == v)

/-- Stable insertion of `v` into a list sorted by `keyIdx names`: `v` goes in
front of the first element with a key not smaller than its own. -/
def insertByIdx (names : List String) (v : String) : List String → List String
  | [] => [v]
  | h :: tl =>
    if keyIdx names v ≤ keyIdx names h then v :: h :: tl
    else h :: insertByIdx names v tl

/-- Stable sort by `keyIdx names`, embedding Python's stable
`list.sort(key=lambda val: names.index(val))`. -/
def sortByIdx (names : List String) : List String → List String
  | [] => []
  | h :: tl => insertByIdx names h (sortByIdx names tl)

/-- One step of the map-building loop in `get_territory_name_map`:
`territory_name_map.setdefault(territory, []).append(name)` followed, when the
list now has more than one element, by the in-place
`sort(key=lambda val: names.index(val))`.  Python computes `names.index(val)`
for every element when sorting, raising `ValueError` if some element is not in
`names`; the guard makes that raise explicit. -/
def addEntry (names : List String) (m : TMap) (t n : String) : Except Err TMap :=
  if (listAt m t ++ [n]).length > 1 then
    if (listAt m t ++ [n]).all (fun v => decide (v ∈ names)) then
      .ok (mapSet m t (sortByIdx names (listAt m t ++ [n])))
    else .error .valueError
  else .ok (mapSet m t (listAt m t ++ [n]))

/-- Total twin of `addEntry` (the `ValueError` branch is unreachable, which is
proved in `addEntry_eq_ok`). -/
def addEntryT (names : List String) (m : TMap) (t n : String) : TMap :=
  if (listAt m t ++ [n]).length > 1 then
    mapSet m t (sortByIdx names (listAt m t ++ [n]))
  else mapSet m t (listAt m t ++ [n])

/-- The rows the SQL query returns: the `(territory, parent)` pairs of the
`tabApplicable Territory` store (already restricted to the category's
parenttype) whose `parent` is among the table's rule-ref `names`. -/
def effEntries (names : List String) (db : List (String × String)) :
    List (String × String) :=
  db.filter (fun p => decide (p.2 ∈ names))

/-- Embeds `get_territory_name_map(parentfield, fieldname)`: with no rows
(`names` empty) the map stays empty; otherwise fold the queried
`(territory, name)` pairs through the `setdefault`/`append`/`sort` loop. -/
def get_territory_name_map (names : List String)
    (db : List (String × String)) : Except Err TMap :=
  if names.isEmpty then .ok []
  else (effEntries names db).foldlM (fun m p => addEntry names m p.1 p.2) []

/-- Total twin of `get_territory_name_map` (see `tnm_eq_ok`). -/
def tmapOf (names : List String) (db : List (String × String)) : TMap :=
  if names.isEmpty then []
  else (effEntries names db).foldl (fun m p => addEntryT names m p.1 p.2) []

/-- Python `if territory_name_map.get(territory):` — the lookup is truthy
exactly when the key is present with a non-empty list. -/
def truthyGet (m : TMap) (t : String) : Option (List String) :=
  match mapGet m t with
  | some l => if l.isEmpty then none else some l
  | none => none

/-- The ancestor loop of `get_name_from_territory`: the first member of the
chain whose map entry is truthy, else `none`. -/
def firstTruthy (m : TMap) : List String → Option (List String)
  | [] => none
  | a :: rest =>
    match truthyGet m a with
    | some l => some l
    | none => firstTruthy m rest

/-- Embeds `get_name_from_territory(territory, parentfield, fieldname)`:
return the direct entry when truthy, otherwise walk the ancestor chain
(`get_territory_ancestry`, the external TerritoryTree, nearest first) and
return the first truthy entry; `None` when nothing matched. -/
def get_name_from_territory (anc : String → List String)
    (names : List String) (db : List (String × String))
    (territory : String) : Except Err (Option (List String)) :=
  match get_territory_name_map names db with
  | .error e => .error e
  | .ok m =>
    match truthyGet m territory with
    | some l => .ok (some l)
    | none => .ok (firstTruthy m (anc territory))

/-- Total twin of `get_name_from_territory` (see `gnft_eq_ok`). -/
def resolveT (anc : String → List String) (names : List String)
    (db : List (String × String)) (territory : String) :
    Option (List String) :=
  match truthyGet (tmapOf names db) territory with
  | some l => some l
  | none => firstTruthy (tmapOf names db) (anc territory)

/-- Python `x and x[0] or None` on an optional list of strings: `None` stays
`None`; an empty list short-circuits `and` and then `or` yields `None`; a
non-empty list yields its first element unless that element is falsy (`""`),
in which case `or` again yields `None`. -/
def pyFirstOrNone : Option (List String) → Option String
  | none => none
  | some [] => none
  | some (h :: _) => if h = "" then none else some h

/-- The `for territory, names in territory_name_map.items()` loop of
`validate_overlapping_territories`: the first item whose list has more than
one name, if any. -/
def firstConflict : TMap → Option (String × List String)
  | [] => none
  | kv :: rest =>
    if kv.2.length > 1 then some kv else firstConflict rest

/-- Embeds `validate_overlapping_territories(parentfield, fieldname)`.
`validate_table_has_rows` is frappe framework code not in this repository;
modelled from the spec: it raises (`EmptyTableError`) exactly when the child
table has no rows, i.e. when `names` is empty.  Then the first territory
mapped to more than one name raises the overlap error naming the conflicting
rule-refs and the territory. -/
def validate_overlapping_territories (doctype : String)
    (names : List String) (db : List (String × String)) : Except Err TMap :=
  if names.isEmpty then .error (.emptyTable doctype)
  else
    match get_territory_name_map names db with
    | .error e => .error e
    | .ok m =>
      match firstConflict m with
      | some kv => .error (.overlap doctype kv.2 kv.1)
      | none => .ok m

/-- Python `if not price_list_for_default_territory:` — truthiness of the
resolution result. -/
def optTruthy : Option (List String) → Bool
  | none => false
  | some l => !l.isEmpty

/-- Embeds `validate_price_lists`: overlap validation on the price-list
table, then resolution of the configured default territory; a falsy
resolution raises the coverage error naming the default territory. -/
def validate_price_lists (anc : String → List String)
    (default_territory : String) (names : List String)
    (db : List (String × String)) : Except Err Unit :=
  match validate_overlapping_territories "Shopping Cart Price List" names db with
  | .error e => .error e
  | .ok _ =>
    match get_name_from_territory anc names db default_territory with
    | .error e => .error e
    | .ok r =>
      if optTruthy r then .ok ()
      else .error (.coverage default_territory)

/-- Embeds `validate_tax_masters`: overlap validation on the tax-master
table. -/
def validate_tax_masters (names : List String)
    (db : List (String × String)) : Except Err Unit :=
  match validate_overlapping_territories "Sales Taxes and Charges Master" names db with
  | .error e => .error e
  | .ok _ => .ok ()

/-- Python truthiness of an optional string (`None` and `""` are falsy). -/
def strOptTruthy : Option String → Bool
  | none => false
  | some s => !(s == "")

/-- Deduplication keeping first occurrences, with an accumulator of already
seen elements. -/
def dedupFirstAux (seen : List String) : List String → List String
  | [] => []
  | h :: tl =>
    if h ∈ seen then dedupFirstAux seen tl
    else h :: dedupFirstAux (h :: seen) tl

/-- The `price_list_currency_map` dict built by
`frappe.db.get_values("Price List", [...], "currency")`: one entry per
distinct price-list name that has a row in the store, associated with that
row's currency (`""` embeds a null currency). -/
def priceListCurrencyMap (pls : List String)
    (plc : String → Option String) : List (String × String) :=
  (dedupFirstAux [] pls).filterMap (fun n => (plc n).map (fun c => (n, c)))

/-- The `for price_list, currency in price_list_currency_map.items()` loop:
the first entry with a falsy currency, if any. -/
def firstBlankCurrency : List (String × String) → Option (String × String)
  | [] => none
  | p :: rest =>
    if p.2 = "" then some p else firstBlankCurrency rest

/-- The `expected_to_exist` comprehension: `currency + "-" + company_currency`
for every currency in the map's values that differs from the company
currency. -/
def requiredPairs (c : String) (pls : List String)
    (plc : String → Option String) : List String :=
  (priceListCurrencyMap pls plc).filterMap
    (fun p => if p.2 = c then none else some (p.2 ++ "-" ++ c))

/-- The `missing` list, `list(set(expected_to_exist).difference(exists))`
where `exists` holds the pairs the exchange-rate store knows: the
deduplicated required pairs without a stored rate (first-insertion order as
the deterministic representative of CPython's set order). -/
def missingPairsSpec (c : String) (pls : List String)
    (plc : String → Option String) (exch : String → Bool) : List String :=
  (dedupFirstAux [] (requiredPairs c pls plc)).filter (fun p => !(exch p))

/-- Embeds `validate_exchange_rates_exist`: a falsy company currency raises;
a price list with a falsy currency raises; otherwise the required
exchange-rate pairs are checked against the store and the missing ones, if
any, are raised. -/
def validate_exchange_rates_exist (company : String)
    (company_currency : Option String) (pls : List String)
    (plc : String → Option String) (exch : String → Bool) : Except Err Unit :=
  if !(strOptTruthy company_currency) then
    .error (.missingCompanyCurrency company)
  else
    match firstBlankCurrency (priceListCurrencyMap pls plc) with
    | some p => .error (.missingPriceListCurrency p.1)
    | none =>
      if (requiredPairs (company_currency.getD "") pls plc).isEmpty then .ok ()
      else
        if (missingPairsSpec (company_currency.getD "") pls plc exch).isEmpty
        then .ok ()
        else .error (.missingExchangeRates
          (missingPairsSpec (company_currency.getD "") pls plc exch))

/-- The Shopping Cart Settings document: scalar fields plus one rule table
per category, each table embedded as its rows' rule-ref strings in row
order. -/
structure Cfg where
  enabled : Bool
  default_territory : String
  company : String
  price_lists : List String
  sales_taxes_and_charges_masters : List String
  shipping_rules : List String

/-- The external stores: per-category `tabApplicable Territory` rows, the
TerritoryTree ancestor function, company and price-list currency lookups, and
the exchange-rate existence check. -/
structure Db where
  price_list_territories : List (String × String)
  tax_master_territories : List (String × String)
  shipping_rule_territories : List (String × String)
  ancestors : String → List String
  company_currency : String → Option String
  price_list_currency : String → Option String
  exchange_rate_exists : String → Bool

/-- Embeds the save-time `validate` hook: when `enabled`, run
`validate_price_lists`, then `validate_tax_masters`, then
`validate_exchange_rates_exist`; a raise aborts the rest. -/
def validate (cfg : Cfg) (db : Db) : Except Err Unit :=
  if cfg.enabled then
    match validate_price_lists db.ancestors cfg.default_territory
        cfg.price_lists db.price_list_territories with
    | .error e => .error e
    | .ok _ =>
      match validate_tax_masters cfg.sales_taxes_and_charges_masters
          db.tax_master_territories with
      | .error e => .error e
      | .ok _ =>
        validate_exchange_rates_exist cfg.company
          (db.company_currency cfg.company) cfg.price_lists
          db.price_list_currency db.exchange_rate_exists
  else .ok ()

/-- Embeds `get_price_list(billing_territory)`. -/
def get_price_list (cfg : Cfg) (db : Db) (billing_territory : String) :
    Except Err (Option String) :=
  match get_name_from_territory db.ancestors cfg.price_lists
      db.price_list_territories billing_territory with
  | .error e => .error e
  | .ok r => .ok (pyFirstOrNone r)

/-- Embeds `get_tax_master(billing_territory)`. -/
def get_tax_master (cfg : Cfg) (db : Db) (billing_territory : String) :
    Except Err (Option String) :=
  match get_name_from_territory db.ancestors
      cfg.sales_taxes_and_charges_masters db.tax_master_territories
      billing_territory with
  | .error e => .error e
  | .ok r => .ok (pyFirstOrNone r)

/-- Embeds `get_shipping_rules(shipping_territory)`: the full resolved
list. -/
def get_shipping_rules (cfg : Cfg) (db : Db) (shipping_territory : String) :
    Except Err (Option (List String)) :=
  get_name_from_territory db.ancestors cfg.shipping_rules
    db.shipping_rule_territories shipping_territory

/-! Basic lemmas about the association-list dict. -/

theorem mapGet_mapSet_self (m : TMap) (t : String) (l : List String) :
    mapGet (mapSet m t l) t = some l := by
  induction m with
  | nil => simp [mapSet, mapGet]
  | cons kv rest ih =>
    obtain ⟨k, v⟩ := kv
    by_cases h : k = t
    · simp [mapSet, h, mapGet]
    · simp [mapSet, h, mapGet, ih]

theorem mapGet_mapSet_ne (m : TMap) (t t' : String) (l : List String)
    (h : t' ≠ t) : mapGet (mapSet m t l) t' = mapGet m t' := by
  induction m with
  | nil => simp [mapSet, mapGet, Ne.symm h]
  | cons kv rest ih =>
    obtain ⟨k, v⟩ := kv
    by_cases hk : k = t
    · subst hk
      simp [mapSet, mapGet, Ne.symm h]
    · simp [mapSet, hk, mapGet, ih]

theorem mem_of_mapGet (m : TMap) (t : String) (l : List String)
    (h : mapGet m t = some l) : (t, l) ∈ m := by
  induction m with
  | nil => simp [mapGet] at h
  | cons kv rest ih =>
    obtain ⟨k, v⟩ := kv
    by_cases hk : k = t
    · subst hk
      simp [mapGet] at h
      simp [h]
    · simp [mapGet, hk] at h
      exact List.mem_cons_of_mem _ (ih h)

theorem mem_mapSet (m : TMap) (t : String) (l : List String)
    (kv : String × List String) (h : kv ∈ mapSet m t l) :
    kv = (t, l) ∨ kv ∈ m := by
  induction m with
  | nil => simp [mapSet] at h; simp [h]
  | cons kv' rest ih =>
    obtain ⟨k, v⟩ := kv'
    by_cases hk : k = t
    · subst hk
      simp [mapSet] at h
      rcases h with h | h
      · exact Or.inl (by simp [h])
      · exact Or.inr (List.mem_cons_of_mem _ h)
    · simp [mapSet, hk] at h
      rcases h with h | h
      · exact Or.inr (by simp [h])
      · rcases ih h with h' | h'
        · exact Or.inl h'
        · exact Or.inr (List.mem_cons_of_mem _ h')

theorem mem_keys_mapSet (m : TMap) (t x : String) (l : List String)
    (h : x ∈ (mapSet m t l).map Prod.fst) :
    x ∈ m.map Prod.fst ∨ x = t := by
  simp only [List.mem_map] at h
  obtain ⟨kv, hkv, hx⟩ := h
  rcases mem_mapSet m t l kv hkv with h' | h'
  · right
    rw [← hx, h']
  · exact Or.inl (List.mem_map.mpr ⟨kv, h', hx⟩)

theorem nodup_keys_mapSet (m : TMap) (t : String) (l : List String)
    (h : (m.map Prod.fst).Nodup) : ((mapSet m t l).map Prod.fst).Nodup := by
  induction m with
  | nil => simp [mapSet]
  | cons kv rest ih =>
    obtain ⟨k, v⟩ := kv
    simp only [List.map_cons, List.nodup_cons] at h
    by_cases hk : k = t
    · subst hk
      have hm : mapSet ((k, v) :: rest) k l = (k, l) :: rest := by
        simp [mapSet]
      rw [hm, List.map_cons, List.nodup_cons]
      exact ⟨h.1, h.2⟩
    · have hm : mapSet ((k, v) :: rest) t l = (k, v) :: mapSet rest t l := by
        simp [mapSet, hk]
      rw [hm, List.map_cons, List.nodup_cons]
      exact ⟨fun hmem => (mem_keys_mapSet rest t k l hmem).elim h.1 hk, ih h.2⟩

theorem mapGet_of_mem (m : TMap) (t : String) (l : List String)
    (hnd : (m.map Prod.fst).Nodup) (h : (t, l) ∈ m) :
    mapGet m t = some l := by
  induction m with
  | nil => simp at h
  | cons kv rest ih =>
    obtain ⟨k, v⟩ := kv
    simp only [List.map_cons, List.nodup_cons] at hnd
    rcases List.mem_cons.mp h with h' | h'
    · obtain ⟨h1, h2⟩ := Prod.mk.inj h'.symm
      simp [mapGet, h1, h2]
    · by_cases hk : k = t
      · subst hk
        exact absurd (List.mem_map.mpr ⟨(k, l), h', rfl⟩) hnd.1
      · simp [mapGet, hk, ih hnd.2 h']

theorem listAt_mapSet_self (m : TMap) (t : String) (l : List String) :
    listAt (mapSet m t l) t = l := by
  simp [listAt, mapGet_mapSet_self]

theorem listAt_mapSet_ne (m : TMap) (t t' : String) (l : List String)
    (h : t' ≠ t) : listAt (mapSet m t l) t' = listAt m t' := by
  simp [listAt, mapGet_mapSet_ne m t t' l h]

/-! Lemmas about the stable insertion sort that embeds
`list.sort(key=lambda val: names.index(val))`. -/

theorem length_insertByIdx (names : List String) (v : String)
    (l : List String) : (insertByIdx names v l).length = l.length + 1 := by
  induction l with
  | nil => simp [insertByIdx]
  | cons h tl ih =>
    by_cases hle : keyIdx names v ≤ keyIdx names h
    · simp [insertByIdx, hle]
    · simp [insertByIdx, hle, ih]

theorem length_sortByIdx (names : List String) (l : List String) :
    (sortByIdx names l).length = l.length := by
  induction l with
  | nil => simp [sortByIdx]
  | cons h tl ih => simp [sortByIdx, length_insertByIdx, ih]

theorem mem_insertByIdx (names : List String) (v x : String)
    (l : List String) : x ∈ insertByIdx names v l ↔ x = v ∨ x ∈ l := by
  induction l with
  | nil => simp [insertByIdx]
  | cons h tl ih =>
    by_cases hle : keyIdx names v ≤ keyIdx names h
    · simp [insertByIdx, hle]
    · simp [insertByIdx, hle, ih]
      tauto

theorem mem_sortByIdx (names : List String) (x : String) (l : List String) :
    x ∈ sortByIdx names l ↔ x ∈ l := by
  induction l with
  | nil => simp [sortByIdx]
  | cons h tl ih => simp [sortByIdx, mem_insertByIdx, ih]

theorem pairwise_insertByIdx (names : List String) (v : String)
    (l : List String)
    (h : l.Pairwise (fun a b => keyIdx names a ≤ keyIdx names b)) :
    (insertByIdx names v l).Pairwise
      (fun a b => keyIdx names a ≤ keyIdx names b) := by
  induction l with
  | nil => simp [insertByIdx]
  | cons hd tl ih =>
    rw [List.pairwise_cons] at h
    by_cases hle : keyIdx names v ≤ keyIdx names hd
    · rw [insertByIdx, if_pos hle, List.pairwise_cons]
      refine ⟨fun x hx => ?_, List.pairwise_cons.mpr h⟩
      rcases List.mem_cons.mp hx with h' | h'
      · exact h' ▸ hle
      · exact le_trans hle (h.1 x h')
    · rw [insertByIdx, if_neg hle, List.pairwise_cons]
      refine ⟨fun x hx => ?_, ih h.2⟩
      rcases (mem_insertByIdx names v x tl).mp hx with h' | h'
      · exact h' ▸ le_of_not_le hle
      · exact h.1 x h'

theorem pairwise_sortByIdx (names : List String) (l : List String) :
    (sortByIdx names l).Pairwise
      (fun a b => keyIdx names a ≤ keyIdx names b) := by
  induction l with
  | nil => simp [sortByIdx]
  | cons h tl ih => exact pairwise_insertByIdx names h (sortByIdx names tl) ih

/-! The `ValueError` branch of `addEntry` is unreachable: every name stored
in the map, and every name appended, comes from the table's `names`. -/

/-- All rule-refs stored in the map belong to the table's `names`. -/
def SubNames (names : List String) (m : TMap) : Prop :=
  ∀ kv ∈ m, ∀ v ∈ kv.2, v ∈ names

theorem listAt_subnames (names : List String) (m : TMap) (t : String)
    (h : SubNames names m) : ∀ v ∈ listAt m t, v ∈ names := by
  intro v hv
  unfold listAt at hv
  cases hm : mapGet m t with
  | none => simp [hm] at hv
  | some l0 =>
    rw [hm] at hv
    exact h (t, l0) (mem_of_mapGet m t l0 hm) v hv

theorem addEntry_eq_ok (names : List String) (m : TMap) (t n : String)
    (hsub : ∀ v ∈ listAt m t, v ∈ names) (hn : n ∈ names) :
    addEntry names m t n = .ok (addEntryT names m t n) := by
  unfold addEntry addEntryT
  have hall : (listAt m t ++ [n]).all (fun v => decide (v ∈ names)) = true := by
    simp only [List.all_eq_true, decide_eq_true_eq]
    intro v hv
    rcases List.mem_append.mp hv with h' | h'
    · exact hsub v h'
    · simp at h'
      exact h' ▸ hn
  by_cases hlen : (listAt m t ++ [n]).length > 1
  · rw [if_pos hlen, if_pos hlen, if_pos hall]
  · rw [if_neg hlen, if_neg hlen]

theorem subnames_addEntryT (names : List String) (m : TMap) (t n : String)
    (h : SubNames names m) (hn : n ∈ names) :
    SubNames names (addEntryT names m t n) := by
  have hl : ∀ v ∈ listAt m t ++ [n], v ∈ names := by
    intro v hv
    rcases List.mem_append.mp hv with h' | h'
    · exact listAt_subnames names m t h v h'
    · simp at h'
      exact h' ▸ hn
  intro kv hkv v hv
  unfold addEntryT at hkv
  by_cases hlen : (listAt m t ++ [n]).length > 1
  · rw [if_pos hlen] at hkv
    rcases mem_mapSet _ _ _ _ hkv with h' | h'
    · subst h'
      exact hl v ((mem_sortByIdx names v _).mp hv)
    · exact h kv h' v hv
  · rw [if_neg hlen] at hkv
    rcases mem_mapSet _ _ _ _ hkv with h' | h'
    · subst h'
      exact hl v hv
    · exact h kv h' v hv

theorem foldlM_addEntry_eq (names : List String)
    (entries : List (String × String)) :
    ∀ m : TMap, SubNames names m → (∀ p ∈ entries, p.2 ∈ names) →
      entries.foldlM (fun m p => addEntry names m p.1 p.2) m =
        .ok (entries.foldl (fun m p => addEntryT names m p.1 p.2) m) := by
  induction entries with
  | nil => intro m _ _; rfl
  | cons p tl ih =>
    intro m hsub hmem
    have hp : p.2 ∈ names := hmem p (List.mem_cons_self p tl)
    rw [List.foldlM_cons,
      addEntry_eq_ok names m p.1 p.2 (listAt_subnames names m p.1 hsub) hp]
    rw [List.foldl_cons]
    exact ih (addEntryT names m p.1 p.2)
      (subnames_addEntryT names m p.1 p.2 hsub hp)
      (fun q hq => hmem q (List.mem_cons_of_mem p hq))

theorem mem_effEntries (names : List String) (db : List (String × String))
    (p : String × String) (h : p ∈ effEntries names db) :
    p ∈ db ∧ p.2 ∈ names := by
  unfold effEntries at h
  have := List.mem_filter.mp h
  exact ⟨this.1, by simpa using this.2⟩

theorem tnm_eq_ok (names : List String) (db : List (String × String)) :
    get_territory_name_map names db = .ok (tmapOf names db) := by
  unfold get_territory_name_map tmapOf
  by_cases h : names.isEmpty
  · simp [h]
  · rw [if_neg h, if_neg h]
    exact foldlM_addEntry_eq names (effEntries names db) []
      (fun kv hkv => by simp at hkv)
      (fun p hp => (mem_effEntries names db p hp).2)

theorem gnft_eq_ok (anc : String → List String) (names : List String)
    (db : List (String × String)) (t : String) :
    get_name_from_territory anc names db t = .ok (resolveT anc names db t) := by
  unfold get_name_from_territory resolveT
  rw [tnm_eq_ok]
  cases h : truthyGet (tmapOf names db) t <;> simp [h]

/-! Lemmas about the ancestor-walk loop. -/

theorem firstTruthy_eq_none (m : TMap) (l : List String)
    (h : ∀ x ∈ l, truthyGet m x = none) : firstTruthy m l = none := by
  induction l with
  | nil => rfl
  | cons a rest ih =>
    have ha := h a (List.mem_cons_self a rest)
    simp only [firstTruthy, ha]
    exact ih (fun x hx => h x (List.mem_cons_of_mem a hx))

theorem firstTruthy_append (m : TMap) (pre : List String) (a : String)
    (rest : List String) (e : List String)
    (hpre : ∀ x ∈ pre, truthyGet m x = none) (ha : truthyGet m a = some e) :
    firstTruthy m (pre ++ a :: rest) = some e := by
  induction pre with
  | nil => simp only [List.nil_append, firstTruthy, ha]
  | cons p ptl ih =>
    have hp := hpre p (List.mem_cons_self p ptl)
    simp only [List.cons_append, firstTruthy, hp]
    exact ih (fun x hx => hpre x (List.mem_cons_of_mem p hx))

theorem truthyGet_ne_nil (m : TMap) (t : String) (l : List String)
    (h : truthyGet m t = some l) : l ≠ [] := by
  intro hnil
  subst hnil
  unfold truthyGet at h
  cases hm : mapGet m t with
  | none => simp [hm] at h
  | some l0 =>
    by_cases he : l0.isEmpty
    · simp [hm, he] at h
    · simp [hm, he] at h
      exact he (by simp [h])

theorem firstTruthy_ne_nil (m : TMap) (l : List String) (e : List String)
    (h : firstTruthy m l = some e) : e ≠ [] := by
  induction l with
  | nil => exact absurd h (by simp [firstTruthy])
  | cons a rest ih =>
    unfold firstTruthy at h
    cases ha : truthyGet m a with
    | none => rw [ha] at h; exact ih h
    | some l0 =>
      rw [ha] at h
      cases h
      exact truthyGet_ne_nil m a e ha

theorem resolveT_ne_nil (anc : String → List String) (names : List String)
    (db : List (String × String)) (t : String) (e : List String)
    (h : resolveT anc names db t = some e) : e ≠ [] := by
  unfold resolveT at h
  cases hg : truthyGet (tmapOf names db) t with
  | none => rw [hg] at h; exact firstTruthy_ne_nil _ _ _ h
  | some l0 =>
    rw [hg] at h
    cases h
    exact truthyGet_ne_nil _ _ _ hg

/-! Length accounting: each territory's list in the built map has exactly as
many names as the store has matching rows for it. -/

theorem listAt_addEntryT_self (names : List String) (m : TMap) (t n : String) :
    (listAt (addEntryT names m t n) t).length = (listAt m t).length + 1 := by
  unfold addEntryT
  by_cases hlen : (listAt m t ++ [n]).length > 1
  · rw [if_pos hlen, listAt_mapSet_self, length_sortByIdx]
    simp
  · rw [if_neg hlen, listAt_mapSet_self]
    simp

theorem listAt_addEntryT_ne (names : List String) (m : TMap)
    (t t' n : String) (h : t' ≠ t) :
    listAt (addEntryT names m t n) t' = listAt m t' := by
  unfold addEntryT
  by_cases hlen : (listAt m t ++ [n]).length > 1
  · rw [if_pos hlen, listAt_mapSet_ne _ _ _ _ h]
  · rw [if_neg hlen, listAt_mapSet_ne _ _ _ _ h]

theorem listAt_foldl_length (names : List String)
    (entries : List (String × String)) :
    ∀ (m : TMap) (t : String),
      (listAt (entries.foldl (fun m p => addEntryT names m p.1 p.2) m) t).length
        = (listAt m t).length + entries.countP (fun p => decide (p.1 = t)) := by
  induction entries with
  | nil => intro m t; simp
  | cons p tl ih =>
    intro m t
    obtain ⟨p1, p2⟩ := p
    rw [List.foldl_cons, ih, List.countP_cons]
    by_cases hp : p1 = t
    · subst hp
      rw [listAt_addEntryT_self]
      simp [Nat.add_comm, Nat.add_assoc, Nat.add_left_comm]
    · rw [listAt_addEntryT_ne names m p1 t p2 (fun hh => hp hh.symm)]
      simp [hp]

theorem effEntries_nil_names (db : List (String × String)) :
    effEntries [] db = [] := by
  simp [effEntries]

theorem listAt_tmapOf_length (names : List String)
    (db : List (String × String)) (t : String) :
    (listAt (tmapOf names db) t).length
      = (effEntries names db).countP (fun p => decide (p.1 = t)) := by
  by_cases h : names.isEmpty
  · have hn : names = [] := List.isEmpty_iff.mp h
    subst hn
    rw [effEntries_nil_names]
    simp [tmapOf, listAt, mapGet]
  · unfold tmapOf
    rw [if_neg h, listAt_foldl_length]
    simp [listAt, mapGet]

/-! Invariants of the built map: keys are distinct, every value list is
sorted by original table position. -/

theorem foldl_inv {α β : Type} (f : β → α → β) (inv : β → Prop)
    (l : List α) : ∀ b, inv b → (∀ b a, inv b → inv (f b a)) →
      inv (l.foldl f b) := by
  induction l with
  | nil => intro b hb _; exact hb
  | cons a tl ih =>
    intro b hb hstep
    exact ih (f b a) (hstep b a hb) hstep

theorem keys_nodup_addEntryT (names : List String) (m : TMap) (t n : String)
    (h : (m.map Prod.fst).Nodup) :
    ((addEntryT names m t n).map Prod.fst).Nodup := by
  unfold addEntryT
  by_cases hlen : (listAt m t ++ [n]).length > 1
  · rw [if_pos hlen]; exact nodup_keys_mapSet m t _ h
  · rw [if_neg hlen]; exact nodup_keys_mapSet m t _ h

theorem keys_nodup_tmapOf (names : List String)
    (db : List (String × String)) :
    ((tmapOf names db).map Prod.fst).Nodup := by
  unfold tmapOf
  by_cases h : names.isEmpty
  · rw [if_pos h]; simp
  · rw [if_neg h]
    exact foldl_inv _ (fun m => (m.map Prod.fst).Nodup) _ [] (by simp)
      (fun (m : TMap) (p : String × String) hm =>
        keys_nodup_addEntryT names m p.1 p.2 hm)

/-- All value lists of the map are sorted by `keyIdx names`, i.e. by each
rule-ref's original position in the table. -/
def SortedVals (names : List String) (m : TMap) : Prop :=
  ∀ kv ∈ m, kv.2.Pairwise (fun a b => keyIdx names a ≤ keyIdx names b)

theorem sortedVals_addEntryT (names : List String) (m : TMap) (t n : String)
    (h : SortedVals names m) : SortedVals names (addEntryT names m t n) := by
  intro kv hkv
  unfold addEntryT at hkv
  by_cases hlen : (listAt m t ++ [n]).length > 1
  · rw [if_pos hlen] at hkv
    rcases mem_mapSet _ _ _ _ hkv with h' | h'
    · subst h'
      exact pairwise_sortByIdx names _
    · exact h kv h'
  · rw [if_neg hlen] at hkv
    rcases mem_mapSet _ _ _ _ hkv with h' | h'
    · subst h'
      have hnil : listAt m t = [] := by
        rcases List.eq_nil_or_concat (listAt m t) with hn | ⟨l0, x, hx⟩
        · exact hn
        · exfalso
          apply hlen
          rw [hx]
          simp
      rw [hnil]
      simp
    · exact h kv h'

theorem sortedVals_tmapOf (names : List String)
    (db : List (String × String)) : SortedVals names (tmapOf names db) := by
  unfold tmapOf
  by_cases h : names.isEmpty
  · rw [if_pos h]; intro kv hkv; simp at hkv
  · rw [if_neg h]
    exact foldl_inv _ (SortedVals names) _ []
      (fun kv hkv => by simp at hkv)
      (fun (m : TMap) (p : String × String) hm =>
        sortedVals_addEntryT names m p.1 p.2 hm)

/-! Counting duplicated territories in the effective store rows. -/

theorem countP_le_one_of_nodup (eff : List (String × String))
    (h : (eff.map Prod.fst).Nodup) (t : String) :
    eff.countP (fun p => decide (p.1 = t)) ≤ 1 := by
  induction eff with
  | nil => simp
  | cons p tl ih =>
    rw [List.map_cons, List.nodup_cons] at h
    rw [List.countP_cons]
    by_cases hp : p.1 = t
    · subst hp
      have hz : tl.countP (fun q => decide (q.1 = p.1)) = 0 := by
        rw [List.countP_eq_zero]
        intro q hq
        simp only [decide_eq_true_eq]
        intro hq1
        exact h.1 (List.mem_map.mpr ⟨q, hq, hq1⟩)
      simp [hz]
    · simp [hp, ih h.2]

theorem exists_two_of_not_nodup (eff : List (String × String))
    (h : ¬ (eff.map Prod.fst).Nodup) :
    ∃ t, 2 ≤ eff.countP (fun p => decide (p.1 = t)) := by
  induction eff with
  | nil => exact absurd (by simp) h
  | cons p tl ih =>
    by_cases hk : p.1 ∈ tl.map Prod.fst
    · refine ⟨p.1, ?_⟩
      rw [List.countP_cons, if_pos (by simp)]
      have hpos : 0 < tl.countP (fun q => decide (q.1 = p.1)) := by
        rw [List.countP_pos_iff]
        obtain ⟨q, hq, hq1⟩ := List.mem_map.mp hk
        exact ⟨q, hq, by simp [hq1]⟩
      omega
    · have htl : ¬ (tl.map Prod.fst).Nodup := by
        intro hnd
        exact h (by rw [List.map_cons, List.nodup_cons]; exact ⟨hk, hnd⟩)
      obtain ⟨t, ht⟩ := ih htl
      refine ⟨t, ?_⟩
      rw [List.countP_cons]
      omega

/-! The overlap-detecting loop. -/

theorem firstConflict_eq_none (m : TMap)
    (h : ∀ kv ∈ m, kv.2.length ≤ 1) : firstConflict m = none := by
  induction m with
  | nil => rfl
  | cons kv rest ih =>
    have hkv := h kv (List.mem_cons_self kv rest)
    unfold firstConflict
    rw [if_neg (by omega)]
    exact ih (fun kv' hkv' => h kv' (List.mem_cons_of_mem kv hkv'))

theorem firstConflict_some_spec (m : TMap) (kv : String × List String)
    (h : firstConflict m = some kv) : kv ∈ m ∧ kv.2.length > 1 := by
  induction m with
  | nil => exact absurd h (by simp [firstConflict])
  | cons kv' rest ih =>
    unfold firstConflict at h
    by_cases hl : kv'.2.length > 1
    · rw [if_pos hl] at h
      cases h
      exact ⟨List.mem_cons_self kv rest, hl⟩
    · rw [if_neg hl] at h
      obtain ⟨hmem, hlen⟩ := ih h
      exact ⟨List.mem_cons_of_mem kv' hmem, hlen⟩

theorem firstConflict_isSome (m : TMap) (kv0 : String × List String)
    (h : kv0 ∈ m) (hlen : kv0.2.length > 1) :
    ∃ kv, firstConflict m = some kv := by
  induction m with
  | nil => simp at h
  | cons kv' rest ih =>
    unfold firstConflict
    by_cases hl : kv'.2.length > 1
    · exact ⟨kv', by rw [if_pos hl]⟩
    · rw [if_neg hl]
      rcases List.mem_cons.mp h with h' | h'
      · subst h'
        exact absurd hlen hl
      · exact ih h'

theorem vot_error_shape (doctype : String) (names : List String)
    (db : List (String × String)) (e : Err)
    (h : validate_overlapping_territories doctype names db = .error e) :
    e = .emptyTable doctype ∨ ∃ refs t, e = .overlap doctype refs t := by
  unfold validate_overlapping_territories at h
  by_cases hn : names.isEmpty
  · rw [if_pos hn] at h
    cases h
    exact Or.inl rfl
  · rw [if_neg hn, tnm_eq_ok] at h
    cases hc : firstConflict (tmapOf names db) with
    | none => simp [hc] at h
    | some kv =>
      simp [hc] at h
      exact Or.inr ⟨kv.2, kv.1, h.symm⟩

/-! The claim theorems. -/

/-- C1: for every territory that has a direct entry in the rule table
(a truthy entry in the built territory map), `get_name_from_territory`
returns exactly that territory's rule-ref list, and does so without
consulting the TerritoryTree ancestor chain: the result is the same for
every ancestor function. -/
theorem C1_resolve_direct_hit (anc anc' : String → List String)
    (names : List String) (db : List (String × String)) (t : String)
    (l : List String) (h : truthyGet (tmapOf names db) t = some l) :
    get_name_from_territory anc names db t = .ok (some l) ∧
    get_name_from_territory anc names db t
      = get_name_from_territory anc' names db t := by
  have key : ∀ a : String → List String,
      get_name_from_territory a names db t = .ok (some l) := by
    intro a
    rw [gnft_eq_ok]
    unfold resolveT
    rw [h]
  exact ⟨key anc, (key anc).trans (key anc').symm⟩

/-- C2: for a territory with no direct entry, `get_name_from_territory`
returns the entry of the first member of the ancestor chain (nearest first)
that has one, and `none` when no member of the chain has an entry. -/
theorem C2_resolve_ancestor_fallback (anc : String → List String)
    (names : List String) (db : List (String × String)) (t : String)
    (hnd : truthyGet (tmapOf names db) t = none) :
    (∀ (pre : List String) (a : String) (rest : List String)
        (e : List String),
      anc t = pre ++ a :: rest →
      (∀ x ∈ pre, truthyGet (tmapOf names db) x = none) →
      truthyGet (tmapOf names db) a = some e →
      get_name_from_territory anc names db t = .ok (some e)) ∧
    ((∀ x ∈ anc t, truthyGet (tmapOf names db) x = none) →
      get_name_from_territory anc names db t = .ok none) := by
  constructor
  · intro pre a rest e hchain hpre ha
    rw [gnft_eq_ok]
    unfold resolveT
    rw [hnd, hchain, firstTruthy_append _ pre a rest e hpre ha]
  · intro hall
    rw [gnft_eq_ok]
    unfold resolveT
    rw [hnd, firstTruthy_eq_none _ _ hall]

/-- C4: every rule-ref list the map builder associates with a territory is
ordered by the refs' original position in the table (`keyIdx names`, the
embedding of Python `names.index`), also when several refs share the
territory. -/
theorem C4_map_order (names : List String) (db : List (String × String))
    (t : String) (l : List String)
    (h : mapGet (tmapOf names db) t = some l) :
    l.Pairwise (fun a b => keyIdx names a ≤ keyIdx names b) :=
  sortedVals_tmapOf names db (t, l) (mem_of_mapGet _ _ _ h)

/-- C8: `get_name_from_territory` and the category wrappers never raise:
for every configuration, store and territory the result is `.ok`, absence
of a match being the normal `none`/empty result. -/
theorem C8_resolution_never_errors (anc : String → List String)
    (names : List String) (pairs : List (String × String)) (u : String)
    (cfg : Cfg) (db : Db) (t : String) :
    (get_name_from_territory anc names pairs u).isOk = true ∧
    (get_price_list cfg db t).isOk = true ∧
    (get_tax_master cfg db t).isOk = true ∧
    (get_shipping_rules cfg db t).isOk = true := by
  refine ⟨?_, ?_, ?_, ?_⟩
  · rw [gnft_eq_ok]; rfl
  · unfold get_price_list
    rw [gnft_eq_ok]; rfl
  · unfold get_tax_master
    rw [gnft_eq_ok]; rfl
  · unfold get_shipping_rules
    rw [gnft_eq_ok]; rfl

/-- C10: when resolution yields a non-empty list whose first element is the
falsy `""`, `get_price_list` and `get_tax_master` return `none` (through
`x and x[0] or None`); with a truthy first element they return exactly it;
with no match they return `none`. -/
theorem C10_wrapper_first_element (cfg : Cfg) (db : Db) (t : String) :
    (∀ rest : List String,
      get_name_from_territory db.ancestors cfg.price_lists
          db.price_list_territories t = .ok (some ("" :: rest)) →
      get_price_list cfg db t = .ok none) ∧
    (∀ (h : String) (rest : List String), h ≠ "" →
      get_name_from_territory db.ancestors cfg.price_lists
          db.price_list_territories t = .ok (some (h :: rest)) →
      get_price_list cfg db t = .ok (some h)) ∧
    (get_name_from_territory db.ancestors cfg.price_lists
        db.price_list_territories t = .ok none →
      get_price_list cfg db t = .ok none) ∧
    (∀ rest : List String,
      get_name_from_territory db.ancestors
          cfg.sales_taxes_and_charges_masters db.tax_master_territories t
        = .ok (some ("" :: rest)) →
      get_tax_master cfg db t = .ok none) ∧
    (∀ (h : String) (rest : List String), h ≠ "" →
      get_name_from_territory db.ancestors
          cfg.sales_taxes_and_charges_masters db.tax_master_territories t
        = .ok (some (h :: rest)) →
      get_tax_master cfg db t = .ok (some h)) ∧
    (get_name_from_territory db.ancestors
        cfg.sales_taxes_and_charges_masters db.tax_master_territories t
      = .ok none →
      get_tax_master cfg db t = .ok none) := by
  refine ⟨?_, ?_, ?_, ?_, ?_, ?_⟩
  · intro rest hr
    unfold get_price_list
    rw [hr]
    simp [pyFirstOrNone]
  · intro h rest hne hr
    unfold get_price_list
    rw [hr]
    simp [pyFirstOrNone, hne]
  · intro hr
    unfold get_price_list
    rw [hr]
    simp [pyFirstOrNone]
  · intro rest hr
    unfold get_tax_master
    rw [hr]
    simp [pyFirstOrNone]
  · intro h rest hne hr
    unfold get_tax_master
    rw [hr]
    simp [pyFirstOrNone, hne]
  · intro hr
    unfold get_tax_master
    rw [hr]
    simp [pyFirstOrNone]

/-- C3: the overlap validator fails exactly on an empty table or a
duplicated territory: empty `names` always gives the empty-table error; a
non-empty table whose effective store rows have pairwise distinct
territories succeeds (returning the built map); a duplicated territory
gives the overlap error naming the offending territory and its (at least
two) conflicting rule-refs. -/
theorem C3_check_overlap (doctype : String) (names : List String)
    (db : List (String × String)) :
    (names = [] →
      validate_overlapping_territories doctype names db
        = .error (.emptyTable doctype)) ∧
    (names ≠ [] → ((effEntries names db).map Prod.fst).Nodup →
      validate_overlapping_territories doctype names db
        = .ok (tmapOf names db)) ∧
    (names ≠ [] → ¬ ((effEntries names db).map Prod.fst).Nodup →
      ∃ t refs,
        validate_overlapping_territories doctype names db
          = .error (.overlap doctype refs t) ∧
        mapGet (tmapOf names db) t = some refs ∧ 2 ≤ refs.length) := by
  refine ⟨?_, ?_, ?_⟩
  · intro h
    subst h
    rfl
  · intro hne hnd
    have hemp : ¬ names.isEmpty := fun hh => hne (List.isEmpty_iff.mp hh)
    unfold validate_overlapping_territories
    rw [if_neg hemp, tnm_eq_ok]
    have hfc : firstConflict (tmapOf names db) = none := by
      apply firstConflict_eq_none
      intro kv hkv
      have hget : mapGet (tmapOf names db) kv.1 = some kv.2 := by
        obtain ⟨k, v⟩ := kv
        exact mapGet_of_mem _ _ _ (keys_nodup_tmapOf names db) hkv
      have hlen : (listAt (tmapOf names db) kv.1).length
          = (effEntries names db).countP (fun p => decide (p.1 = kv.1)) :=
        listAt_tmapOf_length names db kv.1
      rw [listAt, hget] at hlen
      simp only [Option.getD_some] at hlen
      rw [hlen]
      exact countP_le_one_of_nodup _ hnd kv.1
    simp [hfc]
  · intro hne hnnd
    have hemp : ¬ names.isEmpty := fun hh => hne (List.isEmpty_iff.mp hh)
    obtain ⟨t2, ht2⟩ := exists_two_of_not_nodup _ hnnd
    have hlen2 : 2 ≤ (listAt (tmapOf names db) t2).length := by
      rw [listAt_tmapOf_length]
      exact ht2
    obtain ⟨l2, hl2⟩ : ∃ l2, mapGet (tmapOf names db) t2 = some l2 := by
      cases hm : mapGet (tmapOf names db) t2 with
      | none =>
        rw [listAt, hm] at hlen2
        simp at hlen2
      | some l2 => exact ⟨l2, rfl⟩
    have hmem2 : (t2, l2) ∈ tmapOf names db := mem_of_mapGet _ _ _ hl2
    have hlen2' : l2.length > 1 := by
      rw [listAt, hl2] at hlen2
      simpa using hlen2
    obtain ⟨kv, hkv⟩ := firstConflict_isSome (tmapOf names db) (t2, l2)
      hmem2 hlen2'
    obtain ⟨hkvmem, hkvlen⟩ := firstConflict_some_spec _ _ hkv
    refine ⟨kv.1, kv.2, ?_, ?_, by omega⟩
    · unfold validate_overlapping_territories
      rw [if_neg hemp, tnm_eq_ok]
      simp [hkv]
    · obtain ⟨k, v⟩ := kv
      exact mapGet_of_mem _ _ _ (keys_nodup_tmapOf names db) hkvmem

/-- C5: given the price-list overlap validation passed, the default-coverage
check fails with the coverage error naming the default territory exactly
when resolving the default territory yields no rule-ref, and succeeds
exactly when it yields one. -/
theorem C5_default_coverage (anc : String → List String)
    (default_territory : String) (names : List String)
    (db : List (String × String)) (m : TMap)
    (hok : validate_overlapping_territories "Shopping Cart Price List"
      names db = .ok m) :
    (validate_price_lists anc default_territory names db
        = .error (.coverage default_territory)
      ↔ get_name_from_territory anc names db default_territory = .ok none) ∧
    (validate_price_lists anc default_territory names db = .ok ()
      ↔ ∃ l, get_name_from_territory anc names db default_territory
          = .ok (some l)) := by
  unfold validate_price_lists
  rw [hok, gnft_eq_ok]
  cases hr : resolveT anc names db default_territory with
  | none =>
    simp [optTruthy, gnft_eq_ok, hr]
  | some l =>
    have hl : l ≠ [] := resolveT_ne_nil _ _ _ _ _ hr
    have hemp : l.isEmpty = false := by
      simpa [List.isEmpty_iff] using hl
    simp [optTruthy, gnft_eq_ok, hr, hemp]

/-- C9: the save-time hook runs nothing when disabled; when enabled it runs
the price-list checks, then the tax-master overlap check, then the currency
check, the first failure aborting the rest; within the price-list stage the
overlap check precedes (and gates) the default-coverage check. -/
theorem C9_validate_order (cfg : Cfg) (db : Db) :
    (cfg.enabled = false → validate cfg db = .ok ()) ∧
    (cfg.enabled = true →
      (∀ e, validate_price_lists db.ancestors cfg.default_territory
          cfg.price_lists db.price_list_territories = .error e →
        validate cfg db = .error e) ∧
      (validate_price_lists db.ancestors cfg.default_territory
          cfg.price_lists db.price_list_territories = .ok () →
        (∀ e, validate_tax_masters cfg.sales_taxes_and_charges_masters
            db.tax_master_territories = .error e →
          validate cfg db = .error e) ∧
        (validate_tax_masters cfg.sales_taxes_and_charges_masters
            db.tax_master_territories = .ok () →
          validate cfg db = validate_exchange_rates_exist cfg.company
            (db.company_currency cfg.company) cfg.price_lists
            db.price_list_currency db.exchange_rate_exists)) ∧
      (∀ e, validate_overlapping_territories "Shopping Cart Price List"
          cfg.price_lists db.price_list_territories = .error e →
        validate_price_lists db.ancestors cfg.default_territory
          cfg.price_lists db.price_list_territories = .error e) ∧
      (∀ t0, validate_price_lists db.ancestors cfg.default_territory
          cfg.price_lists db.price_list_territories = .error (.coverage t0) →
        ∃ m, validate_overlapping_territories "Shopping Cart Price List"
          cfg.price_lists db.price_list_territories = .ok m)) := by
  constructor
  · intro hdis
    unfold validate
    rw [hdis]
    rfl
  · intro hen
    refine ⟨?_, ?_, ?_, ?_⟩
    · intro e he
      unfold validate
      rw [hen, if_pos rfl, he]
    · intro hpl
      constructor
      · intro e he
        unfold validate
        rw [hen, if_pos rfl, hpl, he]
      · intro htm
        unfold validate
        rw [hen, if_pos rfl, hpl, htm]
    · intro e he
      unfold validate_price_lists
      rw [he]
    · intro t0 h
      unfold validate_price_lists at h
      cases hov : validate_overlapping_territories "Shopping Cart Price List"
          cfg.price_lists db.price_list_territories with
      | error e =>
        rw [hov] at h
        simp at h
        subst h
        rcases vot_error_shape _ _ _ _ hov with hsh | ⟨refs, t1, hsh⟩ <;>
          simp at hsh
      | ok m => exact ⟨m, rfl⟩

/-! Lemmas about the set-dedup used by the currency validator. -/

theorem mem_dedupFirstAux (l : List String) :
    ∀ (seen : List String) (x : String),
      x ∈ dedupFirstAux seen l ↔ x ∈ l ∧ x ∉ seen := by
  induction l with
  | nil => intro seen x; simp [dedupFirstAux]
  | cons h tl ih =>
    intro seen x
    by_cases hs : h ∈ seen
    · rw [dedupFirstAux, if_pos hs, ih]
      constructor
      · rintro ⟨hx, hxs⟩
        exact ⟨List.mem_cons_of_mem h hx, hxs⟩
      · rintro ⟨hx, hxs⟩
        rcases List.mem_cons.mp hx with h' | h'
        · exact absurd (h' ▸ hs) hxs
        · exact ⟨h', hxs⟩
    · rw [dedupFirstAux, if_neg hs]
      constructor
      · intro hx
        rcases List.mem_cons.mp hx with h' | h'
        · subst h'
          exact ⟨List.mem_cons_self x tl, hs⟩
        · obtain ⟨h1, h2⟩ := (ih (h :: seen) x).mp h'
          exact ⟨List.mem_cons_of_mem h h1,
            fun hh => h2 (List.mem_cons_of_mem h hh)⟩
      · rintro ⟨hx, hxs⟩
        rcases List.mem_cons.mp hx with h' | h'
        · subst h'
          exact List.mem_cons_self x _
        · by_cases hxh : x = h
          · subst hxh
            exact List.mem_cons_self x _
          · exact List.mem_cons_of_mem h
              ((ih (h :: seen) x).mpr ⟨h', by simp [hxh, hxs]⟩)

theorem nodup_dedupFirstAux (l : List String) :
    ∀ seen : List String, (dedupFirstAux seen l).Nodup := by
  induction l with
  | nil => intro seen; simp [dedupFirstAux]
  | cons h tl ih =>
    intro seen
    by_cases hs : h ∈ seen
    · rw [dedupFirstAux, if_pos hs]
      exact ih seen
    · rw [dedupFirstAux, if_neg hs, List.nodup_cons]
      refine ⟨fun hmem => ?_, ih (h :: seen)⟩
      exact ((mem_dedupFirstAux tl (h :: seen) h).mp hmem).2
        (List.mem_cons_self h seen)

/-- With a truthy company currency and no blank price-list currency, the
currency validator reduces to the required-pairs / missing-pairs check. -/
theorem vere_eq (company c : String) (pls : List String)
    (plc : String → Option String) (exch : String → Bool) (hc : c ≠ "")
    (hcur : firstBlankCurrency (priceListCurrencyMap pls plc) = none) :
    validate_exchange_rates_exist company (some c) pls plc exch
      = if (requiredPairs c pls plc).isEmpty then .ok ()
        else if (missingPairsSpec c pls plc exch).isEmpty then .ok ()
        else .error (.missingExchangeRates (missingPairsSpec c pls plc exch)) := by
  have hb : (c == "") = false := by
    rw [beq_eq_false_iff_ne]
    exact hc
  unfold validate_exchange_rates_exist
  simp [strOptTruthy, hb, hcur]

/-- C6: with a truthy company currency and no blank price-list currency,
the currency validator succeeds when every required pair
`currency ++ "-" ++ company currency` (over price-list currencies differing
from the company currency) has a stored rate, and otherwise fails listing
exactly the deduplicated required pairs without a stored rate. -/
theorem C6_currency_coverage (company c : String) (pls : List String)
    (plc : String → Option String) (exch : String → Bool) (hc : c ≠ "")
    (hcur : firstBlankCurrency (priceListCurrencyMap pls plc) = none) :
    ((∀ p ∈ requiredPairs c pls plc, exch p = true) →
      validate_exchange_rates_exist company (some c) pls plc exch = .ok ()) ∧
    (∀ l, validate_exchange_rates_exist company (some c) pls plc exch
        = .error (.missingExchangeRates l) →
      (∀ p, p ∈ l ↔ p ∈ requiredPairs c pls plc ∧ exch p = false)
        ∧ l.Nodup) ∧
    ((∃ p ∈ requiredPairs c pls plc, exch p = false) →
      ∃ l, validate_exchange_rates_exist company (some c) pls plc exch
        = .error (.missingExchangeRates l)) := by
  rw [vere_eq company c pls plc exch hc hcur]
  have hmemMissing : ∀ p, p ∈ missingPairsSpec c pls plc exch
      ↔ p ∈ requiredPairs c pls plc ∧ exch p = false := by
    intro p
    unfold missingPairsSpec
    rw [List.mem_filter, mem_dedupFirstAux]
    simp
  refine ⟨?_, ?_, ?_⟩
  · intro hall
    by_cases he : (requiredPairs c pls plc).isEmpty
    · rw [if_pos he]
    · rw [if_neg he]
      have hm : (missingPairsSpec c pls plc exch).isEmpty := by
        have : missingPairsSpec c pls plc exch = [] := by
          rw [List.eq_nil_iff_forall_not_mem]
          intro p hp
          obtain ⟨hp1, hp2⟩ := (hmemMissing p).mp hp
          rw [hall p hp1] at hp2
          simp at hp2
        rw [this]
        rfl
      rw [if_pos hm]
  · intro l hl
    by_cases he : (requiredPairs c pls plc).isEmpty
    · rw [if_pos he] at hl
      simp at hl
    · rw [if_neg he] at hl
      by_cases hm : (missingPairsSpec c pls plc exch).isEmpty
      · rw [if_pos hm] at hl
        simp at hl
      · rw [if_neg hm] at hl
        simp only [Except.error.injEq, Err.missingExchangeRates.injEq] at hl
        subst hl
        exact ⟨hmemMissing, List.Nodup.filter _ (nodup_dedupFirstAux _ [])⟩
  · rintro ⟨p0, hp0, hex⟩
    have hp0m : p0 ∈ missingPairsSpec c pls plc exch :=
      (hmemMissing p0).mpr ⟨hp0, hex⟩
    have he : ¬ (requiredPairs c pls plc).isEmpty := by
      intro hh
      rw [List.isEmpty_iff.mp hh] at hp0
      simp at hp0
    have hm : ¬ (missingPairsSpec c pls plc exch).isEmpty := by
      intro hh
      rw [List.isEmpty_iff.mp hh] at hp0m
      simp at hp0m
    rw [if_neg he, if_neg hm]
    exact ⟨missingPairsSpec c pls plc exch, rfl⟩

/-- C7: the order of the reported missing exchange-rate pairs is a function
of the configuration and the stores alone: whenever the currency validator
fails with a missing-rates list, that list is exactly
`missingPairsSpec`, a deterministic function of its inputs. -/
theorem C7_deterministic_order (company c : String) (pls : List String)
    (plc : String → Option String) (exch : String → Bool) (l : List String)
    (h : validate_exchange_rates_exist company (some c) pls plc exch
        = .error (.missingExchangeRates l)) :
    l = missingPairsSpec c pls plc exch := by
  by_cases hc : c = ""
  · subst hc
    unfold validate_exchange_rates_exist at h
    simp [strOptTruthy] at h
  · cases hcur : firstBlankCurrency (priceListCurrencyMap pls plc) with
    | some p =>
      unfold validate_exchange_rates_exist at h
      have hb : (c == "") = false := by
        rw [beq_eq_false_iff_ne]
        exact hc
      simp [strOptTruthy, hb, hcur] at h
    | none =>
      rw [vere_eq company c pls plc exch hc hcur] at h
      by_cases he : (requiredPairs c pls plc).isEmpty
      · simp [he] at h
      · by_cases hm : (missingPairsSpec c pls plc exch).isEmpty
        · simp [he, hm] at h
        · simp only [if_neg he, if_neg hm, Except.error.injEq,
            Err.missingExchangeRates.injEq] at h
          exact h.symm

/-! Concrete data for the witnesses. -/

/-- A price-list currency store for the spec's example: three price lists
with currencies USD, EUR, EUR. -/
def plcW : String → Option String := fun n =>
  if n = "PL1" then some "USD"
  else if n = "PL2" then some "EUR"
  else if n = "PL3" then some "EUR"
  else none

/-- A configuration whose price-list table holds the single falsy rule-ref
`""` and whose tax table holds `"TX"`. -/
def cfgA : Cfg := ⟨true, "T", "C", [""], ["TX"], []⟩

/-- Stores matching `cfgA`: territory `"T"` carries both entries; no
ancestors anywhere. -/
def dbA : Db :=
  ⟨[("T", "")], [("T", "TX")], [], fun _ => [], fun _ => none,
    fun _ => none, fun _ => false⟩

/-! Witnesses: each claim theorem with a hypothesis applied at a concrete
input. -/

/-- Witness for C1: `"India"` has a direct entry, resolution returns it and
ignores the ancestor function. -/
theorem C1_resolve_direct_hit_witness :
    truthyGet (tmapOf ["PL-India", "PL-Asia"]
        [("India", "PL-India"), ("Asia", "PL-Asia")]) "India"
      = some ["PL-India"] ∧
    get_name_from_territory (fun _ => ["Asia"]) ["PL-India", "PL-Asia"]
        [("India", "PL-India"), ("Asia", "PL-Asia")] "India"
      = .ok (some ["PL-India"]) ∧
    get_name_from_territory (fun _ => ["Asia"]) ["PL-India", "PL-Asia"]
        [("India", "PL-India"), ("Asia", "PL-Asia")] "India"
      = get_name_from_territory (fun _ => ["Other"]) ["PL-India", "PL-Asia"]
        [("India", "PL-India"), ("Asia", "PL-Asia")] "India" :=
  ⟨by decide,
    C1_resolve_direct_hit (fun _ => ["Asia"]) (fun _ => ["Other"])
      ["PL-India", "PL-Asia"] [("India", "PL-India"), ("Asia", "PL-Asia")]
      "India" ["PL-India"] (by decide)⟩

/-- Witness for C2: `"Mumbai"` has no direct entry and resolves through its
nearest listed ancestor `"India"`; `"Mars"` resolves to nothing. -/
theorem C2_resolve_ancestor_fallback_witness :
    get_name_from_territory
        (fun t => if t = "Mumbai" then ["Agni", "India", "Asia"] else [])
        ["PL-India", "PL-Asia"]
        [("India", "PL-India"), ("Asia", "PL-Asia")] "Mumbai"
      = .ok (some ["PL-India"]) ∧
    get_name_from_territory (fun _ => ["Pluto"]) ["PL-India", "PL-Asia"]
        [("India", "PL-India"), ("Asia", "PL-Asia")] "Mars"
      = .ok none :=
  ⟨(C2_resolve_ancestor_fallback
      (fun t => if t = "Mumbai" then ["Agni", "India", "Asia"] else [])
      ["PL-India", "PL-Asia"]
      [("India", "PL-India"), ("Asia", "PL-Asia")] "Mumbai" (by decide)).1
      ["Agni"] "India" ["Asia"] ["PL-India"] (by decide) (by decide)
      (by decide),
    (C2_resolve_ancestor_fallback (fun _ => ["Pluto"])
      ["PL-India", "PL-Asia"]
      [("India", "PL-India"), ("Asia", "PL-Asia")] "Mars" (by decide)).2
      (by decide)⟩

/-- Witness for C3: empty table, a clean table, and an overlapping table. -/
theorem C3_check_overlap_witness :
    validate_overlapping_territories "D" [] []
      = .error (.emptyTable "D") ∧
    validate_overlapping_territories "D" ["A", "B"]
        [("T", "A"), ("U", "B")]
      = .ok (tmapOf ["A", "B"] [("T", "A"), ("U", "B")]) ∧
    (∃ t refs,
      validate_overlapping_territories "D" ["A", "B"]
          [("T", "B"), ("T", "A")]
        = .error (.overlap "D" refs t) ∧
      mapGet (tmapOf ["A", "B"] [("T", "B"), ("T", "A")]) t = some refs ∧
      2 ≤ refs.length) :=
  ⟨(C3_check_overlap "D" [] []).1 rfl,
    (C3_check_overlap "D" ["A", "B"] [("T", "A"), ("U", "B")]).2.1
      (by decide) (by decide),
    (C3_check_overlap "D" ["A", "B"] [("T", "B"), ("T", "A")]).2.2
      (by decide) (by decide)⟩

/-- Witness for C4: store rows arrive in the order `B`, `A` but the built
list is sorted back to the table order `A`, `B`. -/
theorem C4_map_order_witness :
    mapGet (tmapOf ["A", "B"] [("T", "B"), ("T", "A")]) "T"
      = some ["A", "B"] ∧
    List.Pairwise
      (fun a b => keyIdx ["A", "B"] a ≤ keyIdx ["A", "B"] b)
      ["A", "B"] :=
  ⟨by decide,
    C4_map_order ["A", "B"] [("T", "B"), ("T", "A")] "T" ["A", "B"]
      (by decide)⟩

/-- Witness for C5: with overlap validation passed, the coverage error on
the unreachable default territory `"Mars"` is equivalent to the empty
resolution. -/
theorem C5_default_coverage_witness :
    (validate_price_lists (fun _ => []) "Mars" ["PL"] [("Asia", "PL")]
        = .error (.coverage "Mars")
      ↔ get_name_from_territory (fun _ => []) ["PL"] [("Asia", "PL")] "Mars"
        = .ok none) ∧
    (validate_price_lists (fun _ => []) "Mars" ["PL"] [("Asia", "PL")]
        = .ok ()
      ↔ ∃ l, get_name_from_territory (fun _ => []) ["PL"] [("Asia", "PL")]
          "Mars" = .ok (some l)) :=
  C5_default_coverage (fun _ => []) "Mars" ["PL"] [("Asia", "PL")]
    (tmapOf ["PL"] [("Asia", "PL")]) rfl

/-- Witness for C6: the spec's example — company currency USD, price-list
currencies USD, EUR, EUR, no stored rates — fails listing exactly
`["EUR-USD"]`; with every rate stored it succeeds. -/
theorem C6_currency_coverage_witness :
    ((∀ p, p ∈ ["EUR-USD"]
        ↔ p ∈ requiredPairs "USD" ["PL1", "PL2", "PL3"] plcW
          ∧ (fun _ : String => false) p = false) ∧
      List.Nodup ["EUR-USD"]) ∧
    validate_exchange_rates_exist "C" (some "USD") ["PL1", "PL2", "PL3"]
        plcW (fun _ => true) = .ok () :=
  ⟨(C6_currency_coverage "C" "USD" ["PL1", "PL2", "PL3"] plcW
      (fun _ => false) (by decide) rfl).2.1 ["EUR-USD"] rfl,
    (C6_currency_coverage "C" "USD" ["PL1", "PL2", "PL3"] plcW
      (fun _ => true) (by decide) rfl).1 (by decide)⟩

/-- Witness for C7: on the example configuration the reported list is the
deterministic `missingPairsSpec` of the inputs. -/
theorem C7_deterministic_order_witness :
    ["EUR-USD"]
      = missingPairsSpec "USD" ["PL1", "PL2", "PL3"] plcW
          (fun _ => false) :=
  C7_deterministic_order "C" "USD" ["PL1", "PL2", "PL3"] plcW
    (fun _ => false) ["EUR-USD"] rfl

/-- Witness for C9: a disabled configuration validates as a no-op; an
enabled one with an empty price-list table fails with the first stage's
empty-table error. -/
theorem C9_validate_order_witness :
    validate (⟨false, "T", "C", [], [], []⟩ : Cfg)
        (⟨[], [], [], fun _ => [], fun _ => none, fun _ => none,
          fun _ => false⟩ : Db) = .ok () ∧
    validate (⟨true, "T", "C", [], [], []⟩ : Cfg)
        (⟨[], [], [], fun _ => [], fun _ => none, fun _ => none,
          fun _ => false⟩ : Db)
      = .error (.emptyTable "Shopping Cart Price List") :=
  ⟨(C9_validate_order (⟨false, "T", "C", [], [], []⟩ : Cfg)
      (⟨[], [], [], fun _ => [], fun _ => none, fun _ => none,
        fun _ => false⟩ : Db)).1 rfl,
    ((C9_validate_order (⟨true, "T", "C", [], [], []⟩ : Cfg)
      (⟨[], [], [], fun _ => [], fun _ => none, fun _ => none,
        fun _ => false⟩ : Db)).2 rfl).1
      (.emptyTable "Shopping Cart Price List") rfl⟩

/-- Witness for C10: a resolved list headed by the falsy `""` yields `none`
from `get_price_list`; a truthy head is returned as is; no match yields
`none`. -/
theorem C10_wrapper_first_element_witness :
    get_price_list cfgA dbA "T" = .ok none ∧
    get_tax_master cfgA dbA "T" = .ok (some "TX") ∧
    get_price_list cfgA dbA "Nowhere" = .ok none :=
  ⟨(C10_wrapper_first_element cfgA dbA "T").1 [] rfl,
    (C10_wrapper_first_element cfgA dbA "T").2.2.2.2.1 "TX" [] (by decide)
      rfl,
    (C10_wrapper_first_element cfgA dbA "Nowhere").2.2.1 rfl⟩

end Cart
